import Mathlib

/-!
Shallow embedding of the resource-catalog core found in
`src/source/src/lib/custom_database.rs`, together with proofs of the
behavioural claims made by the specification.

Embedding conventions:
* Rust `String` is Lean `String`; `to_lowercase`/`trim` are embedded at the
  ASCII level (`lowerStr`/`trimStr` below, built from `Char.toLower` and
  `Char.isWhitespace`), which is faithful for the character classes the
  claims exercise.
* A Discord embed (a JSON object carrying optional `title`, `description`,
  `url` text fields) is a structure of three `Option String` fields; the
  `.unwrap()` panics of `Resource::new` are embedded by making the
  constructor return `Option Resource`, `none` standing for the panic.
* The Postgres table is a `List Row` in insertion order; the serial primary
  key grows with every insert, so `ORDER BY id DESC` is the reverse of
  insertion order.  SQL `LIKE` is embedded by an executable pattern matcher
  (`likeMatch`) implementing `%`/`_` wildcards and the default backslash
  escape.  `ORDER BY random() LIMIT 1` is embedded by an explicit `shuffle`
  parameter that is assumed to permute its input.
* The `u16` arithmetic of `select_resources` (`page * limit`) is embedded on
  `Nat` with an explicit `% 2 ^ 16`, the wrap-around of the 16-bit product.
-/

/-- ASCII embedding of Rust `str::to_lowercase`: lowercase every character. -/
def lowerStr (s : String) : String := String.mk (s.data.map Char.toLower)

/-- ASCII embedding of Rust `str::trim`: drop whitespace from both ends. -/
def trimStr (s : String) : String :=
  String.mk (((s.data.dropWhile Char.isWhitespace).reverse.dropWhile Char.isWhitespace).reverse)

/-- One Discord embed: a JSON object exposing optional `title`, `description`
and `url` text fields (the fields `Resource::new` reads with `.get(...)`). -/
structure Embed where
  title : Option String
  description : Option String
  url : Option String
deriving Repr, DecidableEq

/-- The part of a Discord message `Resource::new` consumes: author id,
channel id and the list of embeds. -/
structure Message where
  author_id : Nat
  channel_id : Nat
  embeds : List Embed
deriving Repr, DecidableEq

/-- The `Resource` struct of `custom_database.rs` (all six fields). -/
structure Resource where
  user_id : String
  channel_id : String
  url : String
  description : String
  shash : String
  type_id : Int
deriving Repr, DecidableEq

/-- Rust `Default` for `Resource`: empty strings and zero. -/
def Resource.default : Resource :=
  { user_id := "", channel_id := "", url := "", description := "", shash := "", type_id := 0 }

namespace Resource

/-- Modelled from the spec: the 64-bit hash of `Resource::_calculate_hash` is
`std::collections::hash_map::DefaultHasher`, whose algorithm lives in the Rust
standard library, not in this repository.  Spec §4.1 step 5 fixes only that it
is a stable deterministic 64-bit hash of the description, so it is embedded as
a concrete deterministic 64-bit fold over the string's characters. -/
def _calculate_hash (s : String) : Nat :=
  s.data.foldl (fun h c => (h * 31 + c.toNat) % (2 ^ 64)) 5381

/-- The body of the `for embed in embeds` loop of `Resource::new`: unwrap the
three fields (`none` embeds the panic), overwrite the working url with the
lowercased trimmed embed url, and extend the accumulated description with the
fragment `|url: <url> + <title> + <description>`. -/
def step (acc : String × String) (e : Embed) : Option (String × String) :=
  match e.title, e.description, e.url with
  | some embed_title, some embed_description, some u =>
      let url := trimStr (lowerStr u)
      some (url, acc.2 ++ "|url: " ++ url ++ " + " ++ embed_title ++ " + " ++ embed_description)
  | _, _, _ => none

/-- Embedding of `Resource::new`: fold the loop over the embeds starting from empty url and
description, then lowercase and trim the accumulated description, hash it, and
build the struct with `type_id = 10`.  `none` embeds the `.unwrap()` panic on
an embed missing a field. -/
def new (m : Message) : Option Resource :=
  match m.embeds.foldlM step ("", "") with
  | none => none
  | some (url, acc) =>
    let description := trimStr (lowerStr acc)
    some { user_id := toString m.author_id
           channel_id := toString m.channel_id
           url := url
           description := description
           type_id := 10
           shash := toString (_calculate_hash description) }

end Resource

/-- Packaging of a title/description/url triple as a fully populated embed. -/
def mkEmbed (t : String × String × String) : Embed :=
  { title := some t.1, description := some t.2.1, url := some t.2.2 }

/-- The description fragment contributed by one embed, as the loop of
`Resource::new` appends it (the url already lowercased and trimmed). -/
def fragment (t : String × String × String) : String :=
  "|url: " ++ trimStr (lowerStr t.2.2) ++ " + " ++ t.1 ++ " + " ++ t.2.1

/-- Pure version of `Resource.step` on complete embeds, with the string
appends associated exactly as the Rust `format!` builds them. -/
def stepP (acc : String × String) (t : String × String × String) : String × String :=
  (trimStr (lowerStr t.2.2),
   acc.2 ++ "|url: " ++ trimStr (lowerStr t.2.2) ++ " + " ++ t.1 ++ " + " ++ t.2.1)

example : Resource.new { author_id := 1, channel_id := 2,
                         embeds := [mkEmbed ("T", "D", " HTTP://X.io ")] } =
    some { user_id := "1", channel_id := "2", url := "http://x.io",
           description := "|url: http://x.io + t + d",
           shash := toString (Resource._calculate_hash "|url: http://x.io + t + d"),
           type_id := 10 } := by decide

theorem foldlM_step_map (l : List (String × String × String)) (p : String × String) :
    List.foldlM Resource.step p (l.map mkEmbed) = some (List.foldl stepP p l) := by
  induction l generalizing p with
  | nil => rfl
  | cons t l ih =>
      simp only [List.map_cons, List.foldlM_cons]
      rw [show Resource.step p (mkEmbed t) = some (stepP p t) from rfl]
      simpa using ih (stepP p t)

theorem stepP_snd (u d : String) (t : String × String × String) :
    (stepP (u, d) t).2 = d ++ fragment t := by
  simp [stepP, fragment, String.append_assoc]

theorem foldl_stepP_snd (l : List (String × String × String)) (u d : String) :
    (List.foldl stepP (u, d) l).2 = List.foldl (fun acc t => acc ++ fragment t) d l := by
  induction l generalizing u d with
  | nil => rfl
  | cons t l ih =>
      have h1 : stepP (u, d) t = (trimStr (lowerStr t.2.2), d ++ fragment t) := by
        exact Prod.ext rfl (stepP_snd u d t)
      simp only [List.foldl_cons, h1, ih]

theorem resource_new_map (a c : Nat) (l : List (String × String × String)) :
    Resource.new { author_id := a, channel_id := c, embeds := l.map mkEmbed } =
      some { user_id := toString a
             channel_id := toString c
             url := (List.foldl stepP ("", "") l).1
             description := trimStr (lowerStr (List.foldl stepP ("", "") l).2)
             type_id := 10
             shash := toString (Resource._calculate_hash
               (trimStr (lowerStr (List.foldl stepP ("", "") l).2))) } := by
  unfold Resource.new
  rw [show ({ author_id := a, channel_id := c, embeds := l.map mkEmbed } : Message).embeds =
    l.map mkEmbed from rfl, foldlM_step_map]

theorem foldl_stepP_fst (l : List (String × String × String))
    (t : String × String × String) (u d : String) :
    (List.foldl stepP (u, d) (l ++ [t])).1 = trimStr (lowerStr t.2.2) := by
  rw [List.foldl_append]; rfl

/-- Failure analysis of the embed loop: the fold over the loop body aborts
(with a panic, embedded as `none`) exactly when some embed in the list is
missing one of its `title`, `description`, `url` fields. -/
theorem foldlM_step_none (l : List Embed) (p : String × String) :
    List.foldlM Resource.step p l = none ↔
      ∃ e ∈ l, e.title = none ∨ e.description = none ∨ e.url = none := by
  induction l generalizing p with
  | nil => simp
  | cons e l ih =>
      simp only [List.foldlM_cons]
      cases ht : e.title with
      | none => simp [Resource.step, ht]
      | some vt =>
          cases hd : e.description with
          | none => simp [Resource.step, ht, hd]
          | some vd =>
              cases hu : e.url with
              | none => simp [Resource.step, ht, hd, hu]
              | some vu => simp [Resource.step, ht, hd, hu, ih]

/-- C1: for every message whose embeds each provide title, description and
url, the `description` of the Resource built by `Resource::new` equals the
lowercased, trimmed concatenation, in embed encounter order, of one fragment
`|url: <url> + <title> + <description>` per embed, where `<url>` is the
working url of the loop — the embed's url lowercased and trimmed (spec §4.1
steps 2–3); the final lowercasing makes the inner lowercase immaterial.  For a
message with zero embeds the description is the empty string. -/
theorem C1_description_concatenation :
    (∀ (a c : Nat) (l : List (String × String × String)),
        ∃ r, Resource.new { author_id := a, channel_id := c,
                            embeds := l.map mkEmbed } = some r
          ∧ r.description =
              trimStr (lowerStr (List.foldl (fun acc t => acc ++ fragment t) "" l)))
    ∧ (∀ a c : Nat,
        ∃ r, Resource.new { author_id := a, channel_id := c, embeds := [] } = some r
          ∧ r.description = "") := by
  constructor
  · intro a c l
    refine ⟨_, resource_new_map a c l, ?_⟩
    simp [foldl_stepP_snd]
  · intro a c
    exact ⟨_, rfl, rfl⟩

/-- C2: for every message with at least one embed (each embed complete), the
`url` of the Resource built by `Resource::new` is the last embed's url,
lowercased and trimmed — earlier embeds' urls are overwritten; for a message
with zero embeds it is the empty string. -/
theorem C2_url_is_last_embed :
    (∀ (a c : Nat) (l : List (String × String × String)) (t : String × String × String),
        ∃ r, Resource.new { author_id := a, channel_id := c,
                            embeds := (l ++ [t]).map mkEmbed } = some r
          ∧ r.url = trimStr (lowerStr t.2.2))
    ∧ (∀ a c : Nat,
        ∃ r, Resource.new { author_id := a, channel_id := c, embeds := [] } = some r
          ∧ r.url = "") := by
  constructor
  · intro a c l t
    refine ⟨_, resource_new_map a c (l ++ [t]), ?_⟩
    exact foldl_stepP_fst l t "" ""
  · intro a c
    exact ⟨_, rfl, rfl⟩

/-- C7: the constructor `Resource::new` panics (embedded as `none`) exactly when some embed of
the message is missing one of its `title`, `description` or `url` fields; in
particular it succeeds whenever every embed provides all three. -/
theorem C7_missing_embed_field_panics (m : Message) :
    Resource.new m = none ↔
      ∃ e ∈ m.embeds, e.title = none ∨ e.description = none ∨ e.url = none := by
  rw [← foldlM_step_none m.embeds ("", "")]
  unfold Resource.new
  cases h : List.foldlM Resource.step ("", "") m.embeds with
  | none => simp
  | some p => obtain ⟨u, d⟩ := p; simp

/-- C9: the fingerprint computation is deterministic — equal description
strings always hash to the same 64-bit value, and `Resource::new` produces the
same `shash` for messages with identical embed content and order (the author
and channel ids do not influence it). -/
theorem C9_shash_deterministic :
    (∀ d1 d2 : String, d1 = d2 →
        Resource._calculate_hash d1 = Resource._calculate_hash d2)
    ∧ (∀ m1 m2 : Message, m1.embeds = m2.embeds →
        Option.map Resource.shash (Resource.new m1) =
          Option.map Resource.shash (Resource.new m2)) := by
  constructor
  · intro d1 d2 h
    rw [h]
  · intro m1 m2 h
    unfold Resource.new
    rw [h]
    cases List.foldlM Resource.step ("", "") m2.embeds with
    | none => rfl
    | some p => rfl

/-- Witness for C9 at concrete inputs: equal strings, and two messages that
share their embeds but come from different authors and channels. -/
theorem C9_shash_deterministic_witness :
    Resource._calculate_hash "abc" = Resource._calculate_hash "abc" ∧
    Option.map Resource.shash (Resource.new { author_id := 1, channel_id := 2,
                                              embeds := [mkEmbed ("t", "d", "u")] }) =
      Option.map Resource.shash (Resource.new { author_id := 3, channel_id := 4,
                                                embeds := [mkEmbed ("t", "d", "u")] }) :=
  ⟨C9_shash_deterministic.1 "abc" "abc" rfl, C9_shash_deterministic.2 _ _ rfl⟩

/-- Postgres `LIKE` pattern matching over character lists: `%` matches any
sequence, `_` matches any single character, and a backslash escapes the next
pattern character (the default escape); every other character matches itself.
A trailing lone backslash matches nothing (Postgres rejects such patterns). -/
def likeMatch : List Char → List Char → Bool
  | [], s => s.isEmpty
  | p :: ps, s =>
    if p = '%' then s.tails.any fun t => likeMatch ps t
    else if p = '\\' then
      match ps, s with
      | q :: ps2, c :: s2 => (c == q) && likeMatch ps2 s2
      | _, _ => false
    else if p = '_' then
      match s with
      | [] => false
      | _ :: s2 => likeMatch ps s2
    else
      match s with
      | [] => false
      | c :: s2 => (c == p) && likeMatch ps s2

/-- Pattern matching on strings, as the queries of `custom_database.rs` use it. -/
def likeMatchStr (pat s : String) : Bool := likeMatch pat.data s.data

example : likeMatchStr "%ab%" "xaby" = true := by decide
example : likeMatchStr "%_%" "a" = true := by decide
example : likeMatchStr "%a\\%b%" "xa%by" = true := by decide
example : likeMatchStr "%a\\%b%" "xaCby" = false := by decide
example : likeMatchStr "%%" "" = true := by decide

/-- Literal character-list prefix test (no wildcards). -/
def hasPrefixB : List Char → List Char → Bool
  | [], _ => true
  | _ :: _, [] => false
  | a :: t, b :: s => (a == b) && hasPrefixB t s

/-- Literal substring containment, the reading the specification gives to the
search filter: some suffix of `s` starts with `t`. -/
def hasSubstrB (t s : List Char) : Bool := s.tails.any fun b => hasPrefixB t b

/-- The claim-level filter predicate: `term` occurs in `s` as a substring. -/
def containsTerm (term s : String) : Bool := hasSubstrB term.data s.data

/-- Predicate: `term` is free of the SQL `LIKE` metacharacters `%`, `_` and the escape
character `\`; for such terms `LIKE '%term%'` is substring containment. -/
def noMetaStr (term : String) : Prop :=
  ∀ ch ∈ term.data, ch ≠ '%' ∧ ch ≠ '_' ∧ ch ≠ '\\'

instance (term : String) : Decidable (noMetaStr term) := by
  unfold noMetaStr; infer_instance

/-- One row of the `public.resources` table, as `insert_resource` writes it.
The list holding the rows is kept in insertion order, which is also the order
of the serial primary key the queries sort on. -/
structure Row where
  user_id : String
  channel_id : String
  url : String
  description : String
  type_id : Int
  shash : String
deriving Repr, DecidableEq

/-- Reading one row back, as the loops of `select_resources` and
`select_random_resource` do: strip every literal quote character from the
stored url, copy `description`, `user_id`, `channel_id`, and leave the
remaining fields at `..Default::default()`. -/
def rowToResource (row : Row) : Resource :=
  { user_id := row.user_id
    channel_id := row.channel_id
    url := String.mk (row.url.data.filter fun ch => ch ≠ '"')
    description := row.description
    shash := Resource.default.shash
    type_id := Resource.default.type_id }

namespace DiscordDatabase

/-- Embedding of `DiscordDatabase::insert_resource`: reject (returning `false` and leaving
the table unchanged) when `url` or `description` is empty, otherwise append
one row with all six fields and return `true` (the backend insert itself is
assumed to succeed; a backend error would also be collapsed to `false`). -/
def insert_resource (db : List Row) (resource : Resource) : Bool × List Row :=
  if resource.url.isEmpty || resource.description.isEmpty then (false, db)
  else (true, db ++ [{ user_id := resource.user_id
                       channel_id := resource.channel_id
                       url := resource.url
                       description := resource.description
                       type_id := resource.type_id
                       shash := resource.shash }])

/-- Embedding of `DiscordDatabase::select_resources`: the embedded evaluation of
`SELECT * FROM resources WHERE description LIKE '%term%' ORDER BY id DESC
OFFSET page*limit LIMIT limit`, where `page * limit` is a `u16` product and
therefore wraps modulo `2 ^ 16`.  `ORDER BY id DESC` enumerates the rows in
reverse insertion order. -/
def select_resources (db : List Row) (description : String) (limit page : Nat) :
    List Resource :=
  ((((db.reverse.filter fun row =>
      likeMatchStr ("%" ++ description ++ "%") row.description).drop
        ((page * limit) % (2 ^ 16))).take limit)).map rowToResource

/-- Embedding of `DiscordDatabase::select_random_resource`: the embedded evaluation of
`SELECT * FROM resources WHERE description LIKE '%term%' ORDER BY random()
LIMIT 1`.  The backend's random ordering is the explicit `shuffle` parameter;
the theorems assume it permutes its input. -/
def select_random_resource (db : List Row) (description : String)
    (shuffle : List Row → List Row) : List Resource :=
  ((shuffle (db.filter fun row =>
      likeMatchStr ("%" ++ description ++ "%") row.description)).take 1).map rowToResource

end DiscordDatabase

/-- Formalisation of the filter and offset that claims C4 and C5 assert
`select_resources` implements, following the claims' words: the rows whose
description contains the term as a literal substring, newest first, with
exactly `page * limit` (the exact mathematical product) rows skipped. -/
def select_resources_claimed (db : List Row) (description : String) (limit page : Nat) :
    List Resource :=
  ((((db.reverse.filter fun row => containsTerm description row.description).drop
      (page * limit)).take limit)).map rowToResource

theorem tails_any_isEmpty (s : List Char) : (s.tails.any fun t => t.isEmpty) = true := by
  induction s with
  | nil => rfl
  | cons c s ih => simp only [List.tails_cons, List.any_cons, ih, Bool.or_true]

/-- A metacharacter-free pattern followed by `%` matches exactly the strings
it is a literal prefix of. -/
theorem likeMatch_lit (t : List Char) (ht : ∀ ch ∈ t, ch ≠ '%' ∧ ch ≠ '_' ∧ ch ≠ '\\') :
    ∀ s : List Char, likeMatch (t ++ ['%']) s = hasPrefixB t s := by
  induction t with
  | nil =>
      intro s
      simp only [List.nil_append, hasPrefixB]
      unfold likeMatch
      rw [if_pos rfl]
      rw [show (fun t => likeMatch [] t) = (fun t : List Char => t.isEmpty) from
        funext fun t => rfl]
      exact tails_any_isEmpty s
  | cons c t ih =>
      intro s
      obtain ⟨hc1, hc2, hc3⟩ := ht c (List.mem_cons_self c t)
      have ht' : ∀ ch ∈ t, ch ≠ '%' ∧ ch ≠ '_' ∧ ch ≠ '\\' := fun ch hch =>
        ht ch (List.mem_cons_of_mem c hch)
      cases s with
      | nil =>
          rw [List.cons_append]
          unfold likeMatch
          rw [if_neg hc1, if_neg hc3, if_neg hc2]
          rfl
      | cons d s =>
          rw [List.cons_append]
          unfold likeMatch
          rw [if_neg hc1, if_neg hc3, if_neg hc2]
          show (d == c && likeMatch (t ++ ['%']) s) = hasPrefixB (c :: t) (d :: s)
          rw [ih ht' s]
          show (d == c && hasPrefixB t s) = (c == d && hasPrefixB t s)
          rcases Decidable.em (d = c) with h | h
          · subst h; rfl
          · have h2 : ¬c = d := fun hcd => h hcd.symm
            rw [show (d == c) = false from beq_eq_false_iff_ne.mpr h,
                show (c == d) = false from beq_eq_false_iff_ne.mpr h2]

/-- For a metacharacter-free term, `LIKE '%term%'` is substring containment. -/
theorem likeMatch_pct (t : List Char) (ht : ∀ ch ∈ t, ch ≠ '%' ∧ ch ≠ '_' ∧ ch ≠ '\\')
    (s : List Char) : likeMatch ('%' :: (t ++ ['%'])) s = hasSubstrB t s := by
  unfold likeMatch
  rw [if_pos rfl]
  unfold hasSubstrB
  congr 1
  funext b
  exact likeMatch_lit t ht b

/-- String-level version: for a term without `LIKE` metacharacters, the filter
`description LIKE '%term%'` run by the queries is exactly the substring test
the claims describe. -/
theorem likeMatchStr_eq_containsTerm (term s : String) (h : noMetaStr term) :
    likeMatchStr ("%" ++ term ++ "%") s = containsTerm term s := by
  have hdata : ("%" ++ term ++ "%").data = '%' :: (term.data ++ ['%']) := by
    simp [String.data_append]
  unfold likeMatchStr containsTerm
  rw [hdata]
  exact likeMatch_pct term.data h s.data

/-- C3: a Resource with empty `url` or empty `description` (or both) is
rejected by `insert_resource`: the call returns `false` and the table is
unchanged — no row is written (and no error is raised; the function returns
normally). -/
theorem C3_insert_rejects_empty_fields (db : List Row) (r : Resource)
    (h : r.url = "" ∨ r.description = "") :
    DiscordDatabase.insert_resource db r = (false, db) := by
  rcases h with h | h
  · unfold DiscordDatabase.insert_resource
    rw [if_pos (by rw [h]; rfl)]
  · unfold DiscordDatabase.insert_resource
    rw [if_pos (by rw [h]; exact Bool.or_eq_true_iff.mpr (Or.inr rfl))]

/-- Witness for C3: a resource with empty url and non-empty description is
rejected and the (empty) table is left as it was. -/
theorem C3_insert_rejects_empty_fields_witness :
    DiscordDatabase.insert_resource []
      { user_id := "9", channel_id := "7", url := "", description := "d",
        shash := "5", type_id := 10 } = (false, []) :=
  C3_insert_rejects_empty_fields [] _ (Or.inl rfl)

/-- C10: building a Resource from a message with zero embeds yields empty
`url` and empty `description`, so inserting it always returns `false` and
writes nothing, whatever the table contents. -/
theorem C10_no_embeds_never_inserted (a c : Nat) (db : List Row) :
    ∃ r, Resource.new { author_id := a, channel_id := c, embeds := [] } = some r
      ∧ r.url = "" ∧ r.description = ""
      ∧ DiscordDatabase.insert_resource db r = (false, db) := by
  exact ⟨_, rfl, rfl, rfl, rfl⟩

/-- A concrete stored row used by witnesses and counterexamples: its url
carries literal quote characters (the historically malformed shape the read
path cleans up) and its description contains no `LIKE` metacharacter. -/
def sampleRow : Row :=
  { user_id := "u1", channel_id := "c1", url := "\"http://a\"",
    description := "alpha beta", type_id := 10, shash := "42" }

/-- C8: every Resource returned by `select_resources` or
`select_random_resource` comes from a stored row; its `url` is the stored url
with every literal quote character removed, and the other returned fields
(`description`, `user_id`, `channel_id`) are exactly as stored (the fields the
read path does not populate, `shash` and `type_id`, are left at default). -/
theorem C8_read_strips_quotes :
    (∀ (db : List Row) (term : String) (limit page : Nat) (res : Resource),
        res ∈ DiscordDatabase.select_resources db term limit page →
        ∃ row ∈ db, res.url = String.mk (row.url.data.filter fun ch => ch ≠ '"')
          ∧ res.description = row.description
          ∧ res.user_id = row.user_id
          ∧ res.channel_id = row.channel_id)
    ∧ (∀ (db : List Row) (term : String) (shuffle : List Row → List Row),
        (∀ l, List.Perm (shuffle l) l) →
        ∀ res ∈ DiscordDatabase.select_random_resource db term shuffle,
        ∃ row ∈ db, res.url = String.mk (row.url.data.filter fun ch => ch ≠ '"')
          ∧ res.description = row.description
          ∧ res.user_id = row.user_id
          ∧ res.channel_id = row.channel_id) := by
  constructor
  · intro db term limit page res hres
    unfold DiscordDatabase.select_resources at hres
    obtain ⟨row, hrow, hmap⟩ := List.mem_map.mp hres
    have h1 : row ∈ db := by
      have h2 := List.mem_of_mem_take hrow
      have h3 := List.mem_of_mem_drop h2
      exact List.mem_reverse.mp (List.mem_filter.mp h3).1
    exact ⟨row, h1, by rw [← hmap]; exact ⟨rfl, rfl, rfl, rfl⟩⟩
  · intro db term shuffle hshuffle res hres
    unfold DiscordDatabase.select_random_resource at hres
    obtain ⟨row, hrow, hmap⟩ := List.mem_map.mp hres
    have h1 : row ∈ db := by
      have h2 := List.mem_of_mem_take hrow
      have h3 := (hshuffle _).mem_iff.mp h2
      exact (List.mem_filter.mp h3).1
    exact ⟨row, h1, by rw [← hmap]; exact ⟨rfl, rfl, rfl, rfl⟩⟩

/-- Witness for C8: a stored url `"http://a"` (with literal quotes) is
returned as `http://a` by both read paths. -/
theorem C8_read_strips_quotes_witness :
    (∃ row ∈ [sampleRow],
        (rowToResource sampleRow).url = String.mk (row.url.data.filter fun ch => ch ≠ '"')
          ∧ (rowToResource sampleRow).description = row.description
          ∧ (rowToResource sampleRow).user_id = row.user_id
          ∧ (rowToResource sampleRow).channel_id = row.channel_id)
    ∧ (∃ row ∈ [sampleRow],
        (rowToResource sampleRow).url = String.mk (row.url.data.filter fun ch => ch ≠ '"')
          ∧ (rowToResource sampleRow).description = row.description
          ∧ (rowToResource sampleRow).user_id = row.user_id
          ∧ (rowToResource sampleRow).channel_id = row.channel_id) :=
  ⟨C8_read_strips_quotes.1 [sampleRow] "" 5 0 (rowToResource sampleRow) (by decide),
   C8_read_strips_quotes.2 [sampleRow] "" (fun l => l) (fun l => List.Perm.refl l)
     (rowToResource sampleRow) (by decide)⟩

theorem containsTerm_empty (s : String) : containsTerm "" s = true := by
  show hasSubstrB [] s.data = true
  unfold hasSubstrB
  cases s.data with
  | nil => rfl
  | cons c l => simp [List.tails_cons, hasPrefixB]

/-- C4 as stated fails: with the single stored row `sampleRow` (description
`alpha beta`), the term `_` is a `LIKE` wildcard, so the query returns the row
even though `_` does not occur in the description as a substring, diverging
from the claimed substring semantics at page 0, limit 1. -/
theorem C4_substring_counterexample :
    DiscordDatabase.select_resources [sampleRow] "_" 1 0 = [rowToResource sampleRow]
    ∧ containsTerm "_" sampleRow.description = false
    ∧ DiscordDatabase.select_resources [sampleRow] "_" 1 0 ≠
        select_resources_claimed [sampleRow] "_" 1 0 := by
  exact ⟨by decide, by decide, by decide⟩

/-- C4 amended: for `u16` page and limit and a term free of the `LIKE`
metacharacters `%`, `_`, `\`, `select_resources` returns exactly the rows
whose description contains the term as a substring (the empty term matches
every description), in reverse insertion order (`ORDER BY id DESC`), after
skipping the first `(page * limit) mod 2^16` such rows — the 16-bit product
wraps — and returning at most `limit` rows; a freshly inserted matching row is
returned first on page zero.  For terms containing metacharacters the filter
follows SQL `LIKE` semantics instead. -/
theorem C4_select_returns_matching_window (db : List Row) (term : String)
    (limit page : Nat) (hpage : page < 2 ^ 16) (hlimit : limit < 2 ^ 16)
    (hterm : noMetaStr term) :
    DiscordDatabase.select_resources db term limit page =
      ((((db.reverse).filter fun row => containsTerm term row.description).drop
          ((page * limit) % (2 ^ 16))).take limit).map rowToResource
    ∧ (DiscordDatabase.select_resources db term limit page).length ≤ limit
    ∧ (∀ s : String, containsTerm "" s = true)
    ∧ (∀ r : Resource, likeMatchStr ("%" ++ term ++ "%") r.description = true →
        r.url.isEmpty = false → r.description.isEmpty = false → 0 < limit →
        (DiscordDatabase.select_resources
            (DiscordDatabase.insert_resource db r).2 term limit 0).head? =
          some (rowToResource
            { user_id := r.user_id, channel_id := r.channel_id, url := r.url,
              description := r.description, type_id := r.type_id,
              shash := r.shash })) := by
  have hfilter : (fun row : Row => likeMatchStr ("%" ++ term ++ "%") row.description) =
      (fun row : Row => containsTerm term row.description) :=
    funext fun row => likeMatchStr_eq_containsTerm term row.description hterm
  refine ⟨?_, ?_, containsTerm_empty, ?_⟩
  · unfold DiscordDatabase.select_resources
    rw [hfilter]
  · unfold DiscordDatabase.select_resources
    rw [List.length_map]
    exact List.length_take_le limit _
  · intro r hmatch hurl hdesc hlim
    obtain ⟨k, rfl⟩ : ∃ k, limit = k + 1 := ⟨limit - 1, by omega⟩
    have hins : (DiscordDatabase.insert_resource db r).2 =
        db ++ [{ user_id := r.user_id, channel_id := r.channel_id, url := r.url,
                 description := r.description, type_id := r.type_id,
                 shash := r.shash }] := by
      unfold DiscordDatabase.insert_resource
      rw [if_neg (by rw [hurl, hdesc]; exact Bool.false_ne_true)]
    rw [hins]
    unfold DiscordDatabase.select_resources
    rw [List.reverse_append]
    simp only [List.reverse_cons, List.reverse_nil, List.nil_append,
      List.singleton_append, List.filter_cons]
    rw [if_pos (by exact hmatch)]
    rw [Nat.zero_mul, Nat.zero_mod, List.drop_zero, List.take_succ_cons, List.map_cons]
    rfl

/-- Witness for the amended C4 at a concrete store, term `a`, limit 2,
page 0. -/
theorem C4_select_returns_matching_window_witness :
    DiscordDatabase.select_resources [sampleRow] "a" 2 0 =
      (((([sampleRow].reverse.filter fun row => containsTerm "a" row.description).drop
          ((0 * 2) % (2 ^ 16))).take 2)).map rowToResource
    ∧ (DiscordDatabase.select_resources [sampleRow] "a" 2 0).length ≤ 2
    ∧ (∀ s : String, containsTerm "" s = true)
    ∧ (∀ r : Resource, likeMatchStr ("%" ++ "a" ++ "%") r.description = true →
        r.url.isEmpty = false → r.description.isEmpty = false → 0 < 2 →
        (DiscordDatabase.select_resources
            (DiscordDatabase.insert_resource [sampleRow] r).2 "a" 2 0).head? =
          some (rowToResource
            { user_id := r.user_id, channel_id := r.channel_id, url := r.url,
              description := r.description, type_id := r.type_id,
              shash := r.shash })) :=
  C4_select_returns_matching_window [sampleRow] "a" 2 0 (by decide) (by decide) (by decide)

/-- C5 as stated fails: at page 256 and limit 256 the exact product is
65536, but the `u16` multiplication in the query string wraps to 0, so with a
single stored row the code skips nothing and returns the row, while skipping
65536 matching rows would return nothing. -/
theorem C5_offset_wrap_counterexample :
    DiscordDatabase.select_resources [sampleRow] "" 256 256 = [rowToResource sampleRow]
    ∧ select_resources_claimed [sampleRow] "" 256 256 = []
    ∧ DiscordDatabase.select_resources [sampleRow] "" 256 256 ≠
        select_resources_claimed [sampleRow] "" 256 256 := by
  exact ⟨by decide, by decide, by decide⟩

/-- C5 amended: for `u16` page and limit, the number of matching rows that
`select_resources` skips is `(page * limit) mod 2^16` — the 16-bit product
wraps — so the returned page has length `min limit (N - (page*limit) mod
2^16)` where `N` counts the matching rows; the skip count equals the exact
mathematical product exactly when `page * limit < 2^16`. -/
theorem C5_skip_count_wraps (db : List Row) (term : String) (limit page : Nat)
    (hpage : page < 2 ^ 16) (hlimit : limit < 2 ^ 16) :
    (DiscordDatabase.select_resources db term limit page).length =
      min limit ((db.reverse.filter fun row =>
        likeMatchStr ("%" ++ term ++ "%") row.description).length -
          (page * limit) % (2 ^ 16))
    ∧ ((page * limit) % (2 ^ 16) = page * limit ↔ page * limit < 2 ^ 16) := by
  constructor
  · unfold DiscordDatabase.select_resources
    rw [List.length_map, List.length_take, List.length_drop]
  · exact Nat.mod_eq_iff_lt (by norm_num)

/-- Witness for the amended C5 at a concrete store, limit 3 and page 1. -/
theorem C5_skip_count_wraps_witness :
    (DiscordDatabase.select_resources [sampleRow] "" 3 1).length =
      min 3 (([sampleRow].reverse.filter fun row =>
        likeMatchStr ("%" ++ "" ++ "%") row.description).length - (1 * 3) % (2 ^ 16))
    ∧ ((1 * 3) % (2 ^ 16) = 1 * 3 ↔ 1 * 3 < 2 ^ 16) :=
  C5_skip_count_wraps [sampleRow] "" 3 1 (by decide) (by decide)

/-- C6 as stated fails on terms containing `LIKE` metacharacters: with the
single stored row `sampleRow` (description `alpha beta`) and term `_`, the
code returns the row (under any backend ordering, here the identity) although
`_` does not occur in the description as a substring, so the result is not
drawn from the substring-matching rows (there are none). -/
theorem C6_substring_counterexample :
    DiscordDatabase.select_random_resource [sampleRow] "_" (fun l => l) =
      [rowToResource sampleRow]
    ∧ containsTerm "_" sampleRow.description = false := by
  exact ⟨by decide, by decide⟩

/-- C6 amended: for every term and every backend ordering (any permutation of
the matching rows), `select_random_resource` returns at most one row, drawn
from the rows whose description matches `LIKE '%term%'` — substring
containment whenever the term is free of `LIKE` metacharacters — and returns
the empty sequence, without failing, when no stored row matches. -/
theorem C6_sample_at_most_one_match (db : List Row) (term : String)
    (shuffle : List Row → List Row) (hshuffle : ∀ l, List.Perm (shuffle l) l) :
    (DiscordDatabase.select_random_resource db term shuffle).length ≤ 1
    ∧ (∀ res ∈ DiscordDatabase.select_random_resource db term shuffle,
        ∃ row ∈ db, likeMatchStr ("%" ++ term ++ "%") row.description = true
          ∧ res = rowToResource row)
    ∧ ((∀ row ∈ db, likeMatchStr ("%" ++ term ++ "%") row.description = false) →
        DiscordDatabase.select_random_resource db term shuffle = [])
    ∧ (noMetaStr term →
        ∀ res ∈ DiscordDatabase.select_random_resource db term shuffle,
        ∃ row ∈ db, containsTerm term row.description = true
          ∧ res = rowToResource row) := by
  have hmem : ∀ res ∈ DiscordDatabase.select_random_resource db term shuffle,
      ∃ row ∈ db, likeMatchStr ("%" ++ term ++ "%") row.description = true
        ∧ res = rowToResource row := by
    intro res hres
    unfold DiscordDatabase.select_random_resource at hres
    obtain ⟨row, hrow, hmap⟩ := List.mem_map.mp hres
    have h2 := (hshuffle _).mem_iff.mp (List.mem_of_mem_take hrow)
    obtain ⟨hdb, hpred⟩ := List.mem_filter.mp h2
    exact ⟨row, hdb, hpred, hmap.symm⟩
  refine ⟨?_, hmem, ?_, ?_⟩
  · unfold DiscordDatabase.select_random_resource
    rw [List.length_map]
    exact List.length_take_le 1 _
  · intro hrows
    unfold DiscordDatabase.select_random_resource
    have hm : (db.filter fun row =>
        likeMatchStr ("%" ++ term ++ "%") row.description) = [] := by
      refine List.filter_eq_nil_iff.mpr ?_
      intro a ha h
      rw [hrows a ha] at h
      exact Bool.false_ne_true h
    rw [hm]
    have h0 : shuffle [] = [] := by
      have := (hshuffle []).length_eq
      simpa using List.length_eq_zero.mp (by simpa using this)
    rw [h0]
    rfl
  · intro hterm res hres
    obtain ⟨row, hdb, hpred, hres2⟩ := hmem res hres
    refine ⟨row, hdb, ?_, hres2⟩
    rw [← likeMatchStr_eq_containsTerm term row.description hterm]
    exact hpred

/-- Witness for the amended C6 at a concrete store with the identity backend
ordering and the empty term. -/
theorem C6_sample_at_most_one_match_witness :
    (DiscordDatabase.select_random_resource [sampleRow] "" (fun l => l)).length ≤ 1
    ∧ (∀ res ∈ DiscordDatabase.select_random_resource [sampleRow] "" (fun l => l),
        ∃ row ∈ [sampleRow], likeMatchStr ("%" ++ "" ++ "%") row.description = true
          ∧ res = rowToResource row)
    ∧ ((∀ row ∈ [sampleRow], likeMatchStr ("%" ++ "" ++ "%") row.description = false) →
        DiscordDatabase.select_random_resource [sampleRow] "" (fun l => l) = [])
    ∧ (noMetaStr "" →
        ∀ res ∈ DiscordDatabase.select_random_resource [sampleRow] "" (fun l => l),
        ∃ row ∈ [sampleRow], containsTerm "" row.description = true
          ∧ res = rowToResource row) :=
  C6_sample_at_most_one_match [sampleRow] "" (fun l => l) (fun l => List.Perm.refl l)
